import Mathlib

namespace PolyTrade

/-- Top-of-book quote for one instrument, as returned by
`PolymarketClient.get_quotes` (src/polytrade/shared/polymarket_client.py).
The Python dict also carries a `ts` field (fetch time); it is never read by
any caller modelled here, so it is omitted. -/
structure Quote where
  best_bid : ℚ
  best_ask : ℚ
  deriving Repr, DecidableEq

/-- Outcome of the underlying order-book fetch inside `get_quotes`:
either the CLOB call (or the subsequent field extraction) raised some
exception, or it produced a book with a list of bid prices and a list of
ask prices (best first). -/
inductive BookFetch where
  | err : BookFetch
  | ok (bids asks : List ℚ) : BookFetch
  deriving Repr, DecidableEq

/-- `PolymarketClient.get_quotes` (polymarket_client.py lines 426-447):
`best_bid = float(bids[0]["price"]) if bids else 0.0` (same for asks), and
any exception in the try-block is caught and mapped to the all-zero quote. -/
def get_quotes : BookFetch → Quote
  | .err => ⟨0, 0⟩
  | .ok bids asks => ⟨bids.headD 0, asks.headD 0⟩

/-- `compute_edge_bps` (services/analyzer/analysis.py lines 13-16). -/
def compute_edge_bps (fair ask : ℚ) : ℚ :=
  if ask ≤ 0 then 0 else (fair - ask) * 10000 / ask

/-- Python `int(...)` applied to a float/rational: truncation toward zero. -/
def pyInt (q : ℚ) : ℤ :=
  if 0 ≤ q then q.num / (q.den : ℤ) else -((-q).num / ((-q).den : ℤ))

/-- A market record as consumed by `run_analysis`
(services/analyzer/analysis.py).  `clobTokenIds` holds the instrument ids
after the JSON-string parse step of lines 105-113 (a parse failure yields
`[]`, exactly as the Python `except` branch does); `liquidityClob` is the
numeric value of `float(market.get("liquidityClob", 0))`. -/
structure Market where
  clobTokenIds : List String
  liquidityClob : ℚ
  condition_id : String
  question : String
  deriving Repr, DecidableEq

/-- A trade suggestion as built by `run_analysis` (the dict of lines
236-250). -/
structure Suggestion where
  tokenId : String
  marketId : String
  title : String
  side : String
  edgeBps : ℤ
  sizeHint : ℚ
  price : ℚ
  fairValue : ℚ
  liquidity : ℚ
  expiresAt : ℤ
  status : String
  createdAt : ℤ
  suggestedAt : ℤ
  deriving Repr, DecidableEq, Inhabited

/-- The token-selection loop of `run_analysis` (lines 146-163): walk the
instrument ids in order with their index `i`; a quote fetch that raises is
skipped (`except Exception: continue`, modelled by `env t = none`); the
first quote whose best ask lies in `[minP, maxP]` is selected together
with its index, and the loop stops there. -/
def findTokenInRange (env : String → Option Quote) (minP maxP : ℚ) :
    Nat → List String → Option (String × Quote × Nat)
  | _, [] => none
  | i, t :: rest =>
    match env t with
    | none => findTokenInRange env minP maxP (i + 1) rest
    | some q =>
      if minP ≤ q.best_ask ∧ q.best_ask ≤ maxP then some (t, q, i)
      else findTokenInRange env minP maxP (i + 1) rest

/-- The per-market body of `run_analysis` (lines 86-263), as a function of
the inputs that decide the market's fate.  Mirrors the check order of the
source: (1) no instrument ids → skip; (2) liquidity below the floor → skip
(in the source this path also trips a `KeyError` on the misspelled
`stats["no_liquidity"]` counter, which the outer `except` catches — the
market is skipped either way and contributes no suggestion); (3) select
the first instrument with ask in `[minP, maxP]`, none → skip; (4) ask ≤ 0
→ skip; otherwise build the suggestion dict of lines 236-250.  Logging and
the Firestore write (whose failure is caught and ignored) are omitted. -/
def processMarket (env : String → Option Quote) (min_liquidity minP maxP : ℚ)
    (now : ℤ) (m : Market) : Option Suggestion :=
  if m.clobTokenIds = [] then none
  else if m.liquidityClob < min_liquidity then none
  else
    match findTokenInRange env minP maxP 0 m.clobTokenIds with
    | none => none
    | some (t, q, i) =>
      if q.best_ask ≤ 0 then none
      else
        let outcome : String := if i = 0 then "YES" else "NO"
        let mid : ℚ := (q.best_bid + q.best_ask) / 2
        let edge : ℚ := compute_edge_bps mid q.best_ask
        some { tokenId := t
               marketId := m.condition_id
               title := m.question
               side := "BUY_" ++ outcome
               edgeBps := pyInt edge
               sizeHint := min (m.liquidityClob * (1 / 100)) 10
               price := q.best_ask
               fairValue := mid
               liquidity := m.liquidityClob
               expiresAt := now + 3600
               status := "OPEN"
               createdAt := now
               suggestedAt := now }

/-- The market loop of `run_analysis`: stop as soon as the accumulated
suggestion list has reached `maxSug` (lines 84-86), otherwise process the
next market and append its suggestion, if any. -/
def runAnalysisLoop (env : String → Option Quote) (min_liquidity minP maxP : ℚ)
    (now : ℤ) (maxSug : Nat) : List Market → List Suggestion → List Suggestion
  | [], acc => acc
  | m :: rest, acc =>
    if maxSug ≤ acc.length then acc
    else
      match processMarket env min_liquidity minP maxP now m with
      | some s => runAnalysisLoop env min_liquidity minP maxP now maxSug rest (acc ++ [s])
      | none => runAnalysisLoop env min_liquidity minP maxP now maxSug rest acc

/-- `run_analysis` (services/analyzer/analysis.py lines 19-313).  `env`
stands for the network-dependent result of `client.get_quotes` on each
instrument id (`none` = the call raised); `min_liquidity` is
`settings.min_liquidity_usd`; `now` is `int(time.time())`.  The function
never raises: every per-market exception is caught by the loop's
`except Exception` handler and turns into a skip. -/
def run_analysis (markets : List Market) (env : String → Option Quote)
    (maxSug : Nat) (minP maxP min_liquidity : ℚ) (now : ℤ) : List Suggestion :=
  runAnalysisLoop env min_liquidity minP maxP now maxSug markets []


/-! ## Timestamp resolution

The live-sports analyzer (services/live_sports_analyzer/live_sports_analysis.py,
`filter_live_markets`, lines 238-267) and the urgent filter
(LocalTests/test_urgent_filter.py, `main`, lines 57-81) share the same
inline timestamp-resolution code:

```
start_time_str = market.get("gameStartTime") or market.get("eventStartTime") or market.get("endDate")
if start_time_str:
    if ' ' in start_time_str and '+' in start_time_str:
        start_dt = datetime.fromisoformat(start_time_str.replace('+00', '+00:00'))
    else:
        start_dt = datetime.fromisoformat(start_time_str.replace('Z', '+00:00'))
```

We model `str.replace` exactly (leftmost, non-overlapping, all
occurrences) and `datetime.fromisoformat` on the grammar the repository's
data actually exercises: `YYYY-MM-DD<sep>HH:MM:SS` followed by an offset
`+HH:MM` / `-HH:MM`, where `<sep>` is any single character (CPython splits
the string at index 10 and never inspects the separator).  Strings of any
other shape — including naive datetimes, which the surrounding `try` later
kills with a `TypeError` on aware-minus-naive subtraction — resolve to
`none`; in the source both paths end in the same silent `continue`. -/

/-- Python `start_time_str.replace('+00', '+00:00')` on the character
list: every leftmost, non-overlapping occurrence of `+00` becomes
`+00:00`, scanning left to right. -/
def replacePlus00 : List Char → List Char
  | [] => []
  | '+' :: '0' :: '0' :: rest => '+' :: '0' :: '0' :: ':' :: '0' :: '0' :: replacePlus00 rest
  | c :: rest => c :: replacePlus00 rest

/-- Python `start_time_str.replace('Z', '+00:00')` on the character list:
every occurrence of `Z` becomes `+00:00`. -/
def replaceZ : List Char → List Char
  | [] => []
  | 'Z' :: rest => '+' :: '0' :: '0' :: ':' :: '0' :: '0' :: replaceZ rest
  | c :: rest => c :: replaceZ rest

/-- Numeric value of an ASCII digit character. -/
def digitVal (c : Char) : Option Nat :=
  if '0' ≤ c ∧ c ≤ '9' then some (c.toNat - 48) else none

/-- Two-digit decimal field. -/
def d2 (a b : Char) : Option Nat := do
  let x ← digitVal a
  let y ← digitVal b
  pure (10 * x + y)

/-- Four-digit decimal field. -/
def d4 (a b c d : Char) : Option Nat := do
  let x ← d2 a b
  let y ← d2 c d
  pure (100 * x + y)

/-- UTC-offset suffix of an ISO-8601 timestamp, in seconds.  An empty
suffix is a naive datetime: the filter's later aware-minus-naive
subtraction raises (and is swallowed), so the record never reaches the
output; we resolve it to `none` directly. -/
def parseOffset : List Char → Option ℤ
  | '+' :: h1 :: h2 :: ':' :: m1 :: m2 :: [] => do
    let h ← d2 h1 h2
    let m ← d2 m1 m2
    if h ≤ 23 ∧ m ≤ 59 then pure ((h * 3600 + m * 60 : ℕ) : ℤ) else none
  | '-' :: h1 :: h2 :: ':' :: m1 :: m2 :: [] => do
    let h ← d2 h1 h2
    let m ← d2 m1 m2
    if h ≤ 23 ∧ m ≤ 59 then pure (-((h * 3600 + m * 60 : ℕ) : ℤ)) else none
  | _ => none

/-- Gregorian leap year, as the proleptic calendar used by Python
`datetime`. -/
def isLeap (y : ℕ) : Bool :=
  (y % 4 == 0 && y % 100 != 0) || y % 400 == 0

/-- Days in a month of the proleptic Gregorian calendar. -/
def daysInMonth (y m : ℕ) : ℕ :=
  if m = 2 then (if isLeap y then 29 else 28)
  else if m = 4 ∨ m = 6 ∨ m = 9 ∨ m = 11 then 30
  else 31

/-- Days from 1970-01-01 to `y-m-d` in the proleptic Gregorian calendar
(civil-from-days inverse, valid for `1 ≤ y ≤ 9999`, which `parseISO`
enforces before calling this). -/
def daysFromCivil (y m d : ℕ) : ℤ :=
  let yy : ℤ := (y : ℤ) - (if m ≤ 2 then 1 else 0)
  let era : ℤ := yy / 400
  let yoe : ℤ := yy - era * 400
  let mp : ℤ := ((m : ℤ) + 9) % 12
  let doy : ℤ := (153 * mp + 2) / 5 + (d : ℤ) - 1
  let doe : ℤ := yoe * 365 + yoe / 4 - yoe / 100 + doy
  era * 146097 + doe - 719468

/-- `datetime.fromisoformat` on the grammar described above, composed
with `.timestamp()`: an aware instant as whole seconds since the epoch.
Range validation mirrors Python's `datetime` constructor. -/
def parseISO : List Char → Option ℤ
  | y1 :: y2 :: y3 :: y4 :: '-' :: mo1 :: mo2 :: '-' :: dd1 :: dd2 :: _ ::
      hh1 :: hh2 :: ':' :: mi1 :: mi2 :: ':' :: ss1 :: ss2 :: rest => do
    let y ← d4 y1 y2 y3 y4
    let mo ← d2 mo1 mo2
    let d ← d2 dd1 dd2
    let h ← d2 hh1 hh2
    let mi ← d2 mi1 mi2
    let s ← d2 ss1 ss2
    let off ← parseOffset rest
    if 1 ≤ y ∧ y ≤ 9999 ∧ 1 ≤ mo ∧ mo ≤ 12 ∧ 1 ≤ d ∧ d ≤ daysInMonth y mo ∧
        h ≤ 23 ∧ mi ≤ 59 ∧ s ≤ 59 then
      pure (daysFromCivil y mo d * 86400 + ((h * 3600 + mi * 60 + s : ℕ) : ℤ) - off)
    else none
  | _ => none

/-- The format-normalisation step of the resolver (live_sports_analysis.py
lines 245-248): space-separated strings with a truncated `+00` offset get
the offset completed to `+00:00`; otherwise a `Z` suffix is rewritten to
`+00:00`. -/
def normalizeTs (s : String) : String :=
  if ' ' ∈ s.toList ∧ '+' ∈ s.toList then ⟨replacePlus00 s.toList⟩
  else ⟨replaceZ s.toList⟩

/-- The full Timestamp Resolver on one field value: normalise the format,
then parse; `none` is the `Unresolved` sentinel. -/
def resolveTs (s : String) : Option ℤ :=
  parseISO (normalizeTs s).toList

/-- A market record as consumed by the live-sports filters.  The three
timestamp-like fields are kept verbatim (`none` = key absent); the other
fields feed the later liquidity/price stage of
`run_live_sports_analysis`. -/
structure SportsMarket where
  gameStartTime : Option String
  eventStartTime : Option String
  endDate : Option String
  question : String
  liquidityClob : ℚ
  clobTokenIds : List String
  deriving Repr, DecidableEq

/-- Python truthiness of an optional string field: absent keys and empty
strings are falsy. -/
def truthy : Option String → Bool
  | none => false
  | some s => !(s == "")

/-- Python `a or b` on two optional string fields. -/
def pyOrField (a b : Option String) : Option String :=
  if truthy a then a else b

/-- The field-preference chain
`market.get("gameStartTime") or market.get("eventStartTime") or market.get("endDate")`. -/
def chooseTimeField (m : SportsMarket) : Option String :=
  pyOrField m.gameStartTime (pyOrField m.eventStartTime m.endDate)

/-- Resolve a record's timestamp: pick the preferred field, check the
`if start_time_str:` truthiness guard, then resolve the string. -/
def resolveMarketTs (m : SportsMarket) : Option ℤ :=
  match chooseTimeField m with
  | none => none
  | some s => if s = "" then none else resolveTs s

/-- `hours_until` of the urgent filter: signed hours from `now` to the
event start. -/
def hoursUntil (now t : ℤ) : ℚ :=
  ((t - now : ℤ) : ℚ) / 3600

/-- `hours_since_start` of the live filter. -/
def hoursSinceStart (now t : ℤ) : ℚ :=
  ((now - t : ℤ) : ℚ) / 3600

/-- Per-record body of `filter_live_markets` (lines 238-266): resolve the
timestamp and keep the record, annotated with `_hours_since_start`, iff
`0 < hours_since_start <= lookback_hours`. -/
def liveEntry (now : ℤ) (lookback : ℚ) (m : SportsMarket) :
    Option (SportsMarket × ℚ) :=
  match resolveMarketTs m with
  | none => none
  | some t =>
    let h := hoursSinceStart now t
    if 0 < h ∧ h ≤ lookback then some (m, h) else none

/-- `filter_live_markets` (live_sports_analysis.py lines 216-278): keep
live records, then `live_markets.sort(key=lambda m: m.get('_hours_since_start', float('inf')))`
— a stable ascending sort on the `_hours_since_start` annotation (every
kept record carries the annotation, so the `inf` default never fires). -/
def filter_live_markets (now : ℤ) (lookback : ℚ) (ms : List SportsMarket) :
    List (SportsMarket × ℚ) :=
  (ms.filterMap (liveEntry now lookback)).mergeSort
    (fun a b => decide (a.2 ≤ b.2))

/-- Per-record body of the urgent filter (test_urgent_filter.py lines
57-78): resolve the timestamp and keep the record, annotated with
`_hours_until`, iff `hours_until <= lookahead` (the script instantiates
`lookahead` with 6). -/
def urgentEntry (now : ℤ) (lookahead : ℚ) (m : SportsMarket) :
    Option (SportsMarket × ℚ) :=
  match resolveMarketTs m with
  | none => none
  | some t =>
    let h := hoursUntil now t
    if h ≤ lookahead then some (m, h) else none

/-- The urgent-mode filter (test_urgent_filter.py lines 57-81):
`urgent_markets.sort(key=lambda m: m.get('_time_until', float('inf')))` —
a stable ascending sort on `_time_until` (seconds); sorting on the
`_hours_until` annotation is the same order since the two keys differ by
the positive factor 3600. -/
def urgentFilter (now : ℤ) (lookahead : ℚ) (ms : List SportsMarket) :
    List (SportsMarket × ℚ) :=
  (ms.filterMap (urgentEntry now lookahead)).mergeSort
    (fun a b => decide (a.2 ≤ b.2))

/-- Step 3 of `run_live_sports_analysis` (live_sports_analysis.py lines
847-969): walk the live markets (each carrying its `_hours_since_start`
annotation) and keep those passing, in order, the liquidity floor
(`liquidity < min_liquidity` → skip), the `is_live` re-check
(`hours_since > 0` plus a present start time — always true for records
produced by `filter_live_markets`), the non-empty `clobTokenIds` check,
and the has-target-price check.  `hasTargetPrice` abstracts the
network-dependent block of lines 884-955 (fetch_market_pricing plus the
per-outcome `min_ask_price <= ask <= max_ask_price` scan); any exception
in that block is caught and skips the record, which `none`-free Boolean
abstraction subsumes. -/
def filterByLiquidityAndPrice (min_liquidity : ℚ)
    (hasTargetPrice : SportsMarket → Bool)
    (live : List (SportsMarket × ℚ)) : List SportsMarket :=
  live.filterMap fun p =>
    if p.1.liquidityClob < min_liquidity then none
    else if ¬ 0 < p.2 then none
    else if p.1.clobTokenIds = [] then none
    else if hasTargetPrice p.1 then some p.1 else none


/-! ## Helper lemmas -/

theorem findTokenInRange_eq_none_of_inverted (env : String → Option Quote)
    {minP maxP : ℚ} (h : maxP < minP) :
    ∀ (i : Nat) (l : List String), findTokenInRange env minP maxP i l = none := by
  intro i l
  induction l generalizing i with
  | nil => rfl
  | cons t rest ih =>
    simp only [findTokenInRange]
    split
    · exact ih _
    · rw [if_neg]
      · exact ih _
      · rintro ⟨h1, h2⟩
        exact absurd (le_trans h1 h2) (not_le.mpr h)

theorem processMarket_eq_none_of_inverted {env : String → Option Quote}
    {minLiq minP maxP : ℚ} {now : ℤ} {m : Market} (h : maxP < minP) :
    processMarket env minLiq minP maxP now m = none := by
  unfold processMarket
  rw [findTokenInRange_eq_none_of_inverted env h]
  split <;> simp

theorem runAnalysisLoop_eq_acc {env : String → Option Quote}
    {minLiq minP maxP : ℚ} {now : ℤ} {maxSug : Nat}
    (h : ∀ m, processMarket env minLiq minP maxP now m = none) :
    ∀ (ms : List Market) (acc : List Suggestion),
      runAnalysisLoop env minLiq minP maxP now maxSug ms acc = acc := by
  intro ms
  induction ms with
  | nil => intro acc; rfl
  | cons m rest ih =>
    intro acc
    simp only [runAnalysisLoop, h m]
    split
    · rfl
    · exact ih acc

/-! ## Claims -/

/-- C6: `compute_edge_bps` returns `(fair - ask) * 10000 / ask` when
`ask > 0` and `0` otherwise; and for every quote with
`0 ≤ best_bid ≤ best_ask` and `best_ask > 0`, taking
`fair = mid = (best_bid + best_ask) / 2` yields a non-positive edge. -/
theorem edge_bps_formula_and_nonpos :
    (∀ fair ask : ℚ, 0 < ask → compute_edge_bps fair ask = (fair - ask) * 10000 / ask) ∧
    (∀ fair ask : ℚ, ask ≤ 0 → compute_edge_bps fair ask = 0) ∧
    (∀ bid ask : ℚ, 0 ≤ bid → bid ≤ ask → 0 < ask →
      compute_edge_bps ((bid + ask) / 2) ask ≤ 0) := by
  refine ⟨fun fair ask h => ?_, fun fair ask h => ?_, fun bid ask h0 hba hpos => ?_⟩
  · rw [compute_edge_bps, if_neg (not_le.mpr h)]
  · rw [compute_edge_bps, if_pos h]
  · rw [compute_edge_bps, if_neg (not_le.mpr hpos)]
    have hnum : ((bid + ask) / 2 - ask) * 10000 ≤ 0 := by nlinarith
    exact div_nonpos_of_nonpos_of_nonneg hnum (le_of_lt hpos)

/-- Witness for C6 at the concrete quote `bid = 0.4`, `ask = 0.5`. -/
theorem edge_bps_formula_and_nonpos_witness :
    (0:ℚ) ≤ 2/5 ∧ (2:ℚ)/5 ≤ 1/2 ∧ (0:ℚ) < 1/2 ∧
      compute_edge_bps ((2/5 + 1/2) / 2) (1/2) ≤ 0 :=
  ⟨by norm_num, by norm_num, by norm_num,
    edge_bps_formula_and_nonpos.2.2 (2/5) (1/2) (by norm_num) (by norm_num) (by norm_num)⟩

/-- C10: `get_quotes` is total (it is a function into `Quote`: every book
fetch outcome, including an exception, yields a `{best_bid, best_ask}`
pair); an empty ask side (resp. bid side) yields `best_ask = 0` (resp.
`best_bid = 0`); a failed fetch yields the all-zero quote, which is
exactly the quote of an empty book — the two cases are indistinguishable
at the interface. -/
theorem get_quotes_total_and_zero_sentinel :
    get_quotes .err = { best_bid := 0, best_ask := 0 } ∧
    (∀ bids : List ℚ, (get_quotes (.ok bids [])).best_ask = 0) ∧
    (∀ asks : List ℚ, (get_quotes (.ok [] asks)).best_bid = 0) ∧
    get_quotes .err = get_quotes (.ok [] []) :=
  ⟨rfl, fun _ => rfl, fun _ => rfl, rfl⟩

/-- C1 (amended): with an inverted price band (`max_price < min_price`)
`run_analysis` does not raise; the acceptance predicate
`min_price <= ask <= max_price` is unsatisfiable, so every market is
rejected at the price check and the scorer returns the empty list. -/
theorem run_analysis_inverted_band_empty (markets : List Market)
    (env : String → Option Quote) (maxSug : Nat)
    (minP maxP min_liquidity : ℚ) (now : ℤ) (h : maxP < minP) :
    run_analysis markets env maxSug minP maxP min_liquidity now = [] :=
  runAnalysisLoop_eq_acc (fun _ => processMarket_eq_none_of_inverted h) markets []

/-- A market/quote environment on which the scorer, with the band the
right way round, emits a suggestion. -/
def bandMarket : Market :=
  { clobTokenIds := ["tok0"], liquidityClob := 100,
    condition_id := "cond0", question := "Team A vs Team B" }

/-- Quote environment for `bandMarket`: the single instrument quotes
`bid = 0.40`, `ask = 0.50`. -/
def bandEnv : String → Option Quote := fun _ => some ⟨2/5, 1/2⟩

unseal Rat.add Rat.sub Rat.mul Rat.inv in
/-- Counterexample to C1 as stated: called with the inverted band
`min_price = 0.8 > 0.2 = max_price`, `run_analysis` does not fail fast
with an error — it runs to completion and returns an ordinary (empty)
result list, on the very input that yields one suggestion under the
correctly-ordered band `[0.2, 0.8]`. -/
theorem run_analysis_inverted_band_cex :
    run_analysis [bandMarket] bandEnv 5 (8/10) (2/10) 10 0 = [] ∧
    (run_analysis [bandMarket] bandEnv 5 (2/10) (8/10) 10 0).length = 1 := by decide

/-- Witness for the amended C1 at a concrete inverted band. -/
theorem run_analysis_inverted_band_empty_witness :
    (2:ℚ)/10 < 8/10 ∧
      run_analysis [bandMarket] bandEnv 5 (8/10) (2/10) 10 0 = [] :=
  ⟨by norm_num,
    run_analysis_inverted_band_empty [bandMarket] bandEnv 5 (8/10) (2/10) 10 0 (by norm_num)⟩


theorem processMarket_some_liquidity {env : String → Option Quote}
    {minLiq minP maxP : ℚ} {now : ℤ} {m : Market} {s : Suggestion}
    (h : processMarket env minLiq minP maxP now m = some s) :
    minLiq ≤ s.liquidity := by
  unfold processMarket at h
  split at h
  · simp at h
  · split at h
    · simp at h
    · rename_i hliq
      split at h
      · simp at h
      · split at h
        · simp at h
        · obtain rfl := Option.some.inj h
          exact not_lt.mp hliq

theorem runAnalysisLoop_liquidity {env : String → Option Quote}
    {minLiq minP maxP : ℚ} {now : ℤ} {maxSug : Nat} :
    ∀ (ms : List Market) (acc : List Suggestion),
      (∀ s ∈ acc, minLiq ≤ s.liquidity) →
      ∀ s ∈ runAnalysisLoop env minLiq minP maxP now maxSug ms acc,
        minLiq ≤ s.liquidity := by
  intro ms
  induction ms with
  | nil => intro acc hacc s hs; exact hacc s hs
  | cons m rest ih =>
    intro acc hacc s hs
    simp only [runAnalysisLoop] at hs
    split at hs
    · exact hacc s hs
    · split at hs
      · rename_i heq
        refine ih _ ?_ s hs
        intro x hx
        rcases List.mem_append.mp hx with hx | hx
        · exact hacc x hx
        · rcases List.mem_singleton.mp hx with rfl
          exact processMarket_some_liquidity heq
      · exact ih _ hacc s hs

/-- C4: a record with liquidity strictly below the floor contributes no
suggestion: (a) its `processMarket` result is `none` regardless of every
other field and of the quotes; (b) consequently every suggestion in
`run_analysis` output carries liquidity at or above the floor; (c) the
live-sports filtering stage likewise drops any market below the floor. -/
theorem liquidity_floor_excludes :
    (∀ (env : String → Option Quote) (minLiq minP maxP : ℚ) (now : ℤ) (m : Market),
      m.liquidityClob < minLiq → processMarket env minLiq minP maxP now m = none) ∧
    (∀ (markets : List Market) (env : String → Option Quote) (maxSug : Nat)
        (minP maxP minLiq : ℚ) (now : ℤ) (s : Suggestion),
      s ∈ run_analysis markets env maxSug minP maxP minLiq now →
      minLiq ≤ s.liquidity) ∧
    (∀ (minLiq : ℚ) (ht : SportsMarket → Bool) (live : List (SportsMarket × ℚ))
        (sm : SportsMarket),
      sm.liquidityClob < minLiq → sm ∉ filterByLiquidityAndPrice minLiq ht live) := by
  refine ⟨fun env minLiq minP maxP now m hlt => ?_,
          fun markets env maxSug minP maxP minLiq now s hs => ?_,
          fun minLiq ht live sm hlt hmem => ?_⟩
  · unfold processMarket
    rw [if_pos hlt]
    split <;> rfl
  · exact runAnalysisLoop_liquidity markets [] (by simp) s hs
  · obtain ⟨p, hp, hf⟩ := List.mem_filterMap.mp hmem
    by_cases h1 : p.1.liquidityClob < minLiq
    · rw [if_pos h1] at hf
      simp at hf
    · rw [if_neg h1] at hf
      split at hf
      · simp at hf
      · split at hf
        · simp at hf
        · split at hf
          · obtain rfl := Option.some.inj hf
            exact h1 hlt
          · simp at hf

/-- A live market below the liquidity floor, used in the C4 witness. -/
def lowLiqSports : SportsMarket :=
  { gameStartTime := some "2025-11-09 03:00:00+00", eventStartTime := none,
    endDate := none, question := "Low liquidity game", liquidityClob := 5,
    clobTokenIds := ["tok"] }

/-- A market below the liquidity floor, used in the C4 witness. -/
def lowLiqMarket : Market :=
  { clobTokenIds := ["tok0"], liquidityClob := 5,
    condition_id := "cond1", question := "Low liquidity game" }

/-- Witness for C4: a record with liquidity 5 against floor 10 is dropped
by both scorer variants, and a concrete scorer output's suggestion sits at
or above the floor. -/
theorem liquidity_floor_excludes_witness :
    ((5:ℚ) < 10 ∧ processMarket bandEnv 10 (2/10) (8/10) 0 lowLiqMarket = none) ∧
    ((run_analysis [bandMarket] bandEnv 5 (2/10) (8/10) 10 0).headD default ∈
        run_analysis [bandMarket] bandEnv 5 (2/10) (8/10) 10 0 ∧
      (10:ℚ) ≤ ((run_analysis [bandMarket] bandEnv 5 (2/10) (8/10) 10 0).headD default).liquidity) ∧
    lowLiqSports ∉ filterByLiquidityAndPrice 10 (fun _ => true) [(lowLiqSports, 1)] := by
  have hmem : (run_analysis [bandMarket] bandEnv 5 (2/10) (8/10) 10 0).headD default ∈
      run_analysis [bandMarket] bandEnv 5 (2/10) (8/10) 10 0 := by
    norm_num [run_analysis, runAnalysisLoop, processMarket, findTokenInRange, bandEnv,
      bandMarket, compute_edge_bps, pyInt]
  refine ⟨⟨by norm_num, liquidity_floor_excludes.1 bandEnv 10 (2/10) (8/10) 0 lowLiqMarket
      (by norm_num [lowLiqMarket])⟩,
    ⟨hmem, liquidity_floor_excludes.2.1 [bandMarket] bandEnv 5 (2/10) (8/10) 10 0 _ hmem⟩,
    liquidity_floor_excludes.2.2 10 (fun _ => true) [(lowLiqSports, 1)] lowLiqSports
      (by norm_num [lowLiqSports])⟩


theorem findTokenInRange_firstMatch (env : String → Option Quote)
    {minP maxP : ℚ} {ti : String} {qi : Quote} (post : List String)
    (hqi : env ti = some qi) (hin : minP ≤ qi.best_ask ∧ qi.best_ask ≤ maxP) :
    ∀ (pre : List String) (k : Nat),
      (∀ t ∈ pre, ∀ q, env t = some q → ¬(minP ≤ q.best_ask ∧ q.best_ask ≤ maxP)) →
      findTokenInRange env minP maxP k (pre ++ ti :: post) =
        some (ti, qi, k + pre.length) := by
  intro pre
  induction pre with
  | nil =>
    intro k _
    simp only [List.nil_append, findTokenInRange, hqi, if_pos hin, List.length_nil,
      Nat.add_zero]
  | cons t ts ih =>
    intro k hpre
    have harith : (k + 1) + ts.length = k + (t :: ts).length := by
      simp only [List.length_cons]
      omega
    simp only [List.cons_append, findTokenInRange]
    split
    · rw [← harith]
      exact ih (k + 1) fun x hx => hpre x (List.mem_cons_of_mem t hx)
    · rename_i q heq
      rw [if_neg (hpre t (List.mem_cons_self t ts) q heq), ← harith]
      exact ih (k + 1) fun x hx => hpre x (List.mem_cons_of_mem t hx)

theorem processMarket_success {env : String → Option Quote}
    {minLiq minP maxP : ℚ} {now : ℤ} {m : Market} {t : String} {q : Quote} {i : Nat}
    (hne : ¬ m.clobTokenIds = []) (hliq : ¬ m.liquidityClob < minLiq)
    (hfind : findTokenInRange env minP maxP 0 m.clobTokenIds = some (t, q, i))
    (hpos : ¬ q.best_ask ≤ 0) :
    processMarket env minLiq minP maxP now m =
      some { tokenId := t
             marketId := m.condition_id
             title := m.question
             side := "BUY_" ++ (if i = 0 then "YES" else "NO")
             edgeBps := pyInt (compute_edge_bps ((q.best_bid + q.best_ask) / 2) q.best_ask)
             sizeHint := min (m.liquidityClob * (1 / 100)) 10
             price := q.best_ask
             fairValue := (q.best_bid + q.best_ask) / 2
             liquidity := m.liquidityClob
             expiresAt := now + 3600
             status := "OPEN"
             createdAt := now
             suggestedAt := now } := by
  unfold processMarket
  rw [if_neg hne, if_neg hliq, hfind]
  simp only [if_neg hpos]

/-- C5: first-match outcome selection.  For a market whose instrument list
splits as `pre ++ ti :: post`, where every instrument in `pre` either
fails its quote fetch or quotes an ask outside `[minP, maxP]`, and `ti`
quotes ask `qi.best_ask ∈ [minP, maxP]` (positive), the scorer accepts
exactly `ti` — the first in-range instrument — at price `qi.best_ask`,
with side `BUY_YES` when `ti` is the first instrument and `BUY_NO`
otherwise; in particular with `pre` nonempty it never falls back to the
first instrument. -/
theorem first_match_outcome_selection (env : String → Option Quote)
    (minLiq minP maxP : ℚ) (now : ℤ) (m : Market)
    (pre post : List String) (ti : String) (qi : Quote)
    (htok : m.clobTokenIds = pre ++ ti :: post)
    (hliq : ¬ m.liquidityClob < minLiq)
    (hpre : ∀ t ∈ pre, ∀ q, env t = some q → ¬(minP ≤ q.best_ask ∧ q.best_ask ≤ maxP))
    (hqi : env ti = some qi) (hin : minP ≤ qi.best_ask ∧ qi.best_ask ≤ maxP)
    (hpos : 0 < qi.best_ask) :
    ∃ s, processMarket env minLiq minP maxP now m = some s ∧
      s.tokenId = ti ∧ s.price = qi.best_ask ∧
      s.side = (if pre = [] then "BUY_YES" else "BUY_NO") := by
  have hne : ¬ m.clobTokenIds = [] := by
    rw [htok]
    simp
  have hfind : findTokenInRange env minP maxP 0 m.clobTokenIds =
      some (ti, qi, 0 + pre.length) := by
    rw [htok]
    exact findTokenInRange_firstMatch env post hqi hin pre 0 hpre
  refine ⟨_, processMarket_success hne hliq hfind (not_le.mpr hpos), rfl, rfl, ?_⟩
  rcases pre with _ | ⟨p, ps⟩ <;> simp

/-- The two-outcome market of the C5 witness: the first instrument quotes
ask 0.95 (outside the band `[0.2, 0.8]`), the second quotes ask 0.5. -/
def twoOutcomeMarket : Market :=
  { clobTokenIds := ["tokYes", "tokNo"], liquidityClob := 100,
    condition_id := "cond2", question := "Team C vs Team D" }

/-- Quote environment for `twoOutcomeMarket`. -/
def twoOutcomeEnv : String → Option Quote := fun t =>
  if t = "tokYes" then some ⟨9/10, 95/100⟩ else some ⟨2/5, 1/2⟩

/-- Witness for C5: on a market where only the second outcome's ask is in
range, the scorer selects the second outcome with side `BUY_NO`. -/
theorem first_match_outcome_selection_witness :
    twoOutcomeMarket.clobTokenIds = ["tokYes"] ++ "tokNo" :: [] ∧
    ∃ s, processMarket twoOutcomeEnv 10 (2/10) (8/10) 0 twoOutcomeMarket = some s ∧
      s.tokenId = "tokNo" ∧ s.price = 1/2 ∧
      s.side = (if (["tokYes"] : List String) = [] then "BUY_YES" else "BUY_NO") := by
  refine ⟨rfl, first_match_outcome_selection twoOutcomeEnv 10 (2/10) (8/10) 0
    twoOutcomeMarket ["tokYes"] [] "tokNo" ⟨2/5, 1/2⟩ rfl (by norm_num [twoOutcomeMarket])
    ?_ (by simp [twoOutcomeEnv]) (by norm_num) (by norm_num)⟩
  intro t ht q hq
  rcases List.mem_singleton.mp ht with rfl
  rw [show twoOutcomeEnv "tokYes" = some ⟨9/10, 95/100⟩ from rfl] at hq
  obtain rfl := Option.some.inj hq
  norm_num


theorem liveEntry_fst {now : ℤ} {lb : ℚ} {m : SportsMarket} {p : SportsMarket × ℚ}
    (h : liveEntry now lb m = some p) : p.1 = m := by
  unfold liveEntry at h
  split at h
  · simp at h
  · dsimp only at h
    split at h
    · obtain rfl := Option.some.inj h
      rfl
    · simp at h

theorem urgentEntry_fst {now : ℤ} {la : ℚ} {m : SportsMarket} {p : SportsMarket × ℚ}
    (h : urgentEntry now la m = some p) : p.1 = m := by
  unfold urgentEntry at h
  split at h
  · simp at h
  · dsimp only at h
    split at h
    · obtain rfl := Option.some.inj h
      rfl
    · simp at h

theorem hoursSince_eq_neg_until (now t : ℤ) :
    hoursSinceStart now t = -hoursUntil now t := by
  unfold hoursSinceStart hoursUntil
  push_cast
  ring

/-- C7: field-preference order of the Timestamp Resolver.  A non-empty
`gameStartTime` always wins (in particular over any `endDate`, even a
differing one); with `gameStartTime` falsy, a non-empty `eventStartTime`
wins; with both falsy, the generic `endDate` is used. -/
theorem timestamp_field_preference :
    (∀ (m : SportsMarket) (g : String), m.gameStartTime = some g → g ≠ "" →
      chooseTimeField m = some g ∧ resolveMarketTs m = resolveTs g) ∧
    (∀ (m : SportsMarket) (e : String), truthy m.gameStartTime = false →
      m.eventStartTime = some e → e ≠ "" →
      chooseTimeField m = some e ∧ resolveMarketTs m = resolveTs e) ∧
    (∀ m : SportsMarket, truthy m.gameStartTime = false →
      truthy m.eventStartTime = false → chooseTimeField m = m.endDate) := by
  refine ⟨fun m g hg hne => ?_, fun m e hgf he hne => ?_, fun m hgf hef => ?_⟩
  · have hch : chooseTimeField m = some g := by
      have ht : truthy (some g) = true := by simp [truthy, hne]
      simp [chooseTimeField, pyOrField, hg, ht]
    refine ⟨hch, ?_⟩
    simp [resolveMarketTs, hch, hne]
  · have hch : chooseTimeField m = some e := by
      have ht : truthy (some e) = true := by simp [truthy, hne]
      simp [chooseTimeField, pyOrField, hgf, he, ht]
    refine ⟨hch, ?_⟩
    simp [resolveMarketTs, hch, hne]
  · simp [chooseTimeField, pyOrField, hgf, hef]

/-- A record exposing both a game-start field and a differing end-date
field, used in the C7 witness. -/
def prefMarket : SportsMarket :=
  { gameStartTime := some "2025-11-09 03:00:00+00", eventStartTime := none,
    endDate := some "2025-12-31T12:00:00Z", question := "E vs F",
    liquidityClob := 50, clobTokenIds := ["x"] }

/-- Witness for C7: `prefMarket` resolves from its game-start field, whose
instant differs from the end-date instant. -/
theorem timestamp_field_preference_witness :
    prefMarket.gameStartTime = some "2025-11-09 03:00:00+00" ∧
    "2025-11-09 03:00:00+00" ≠ "" ∧
    (chooseTimeField prefMarket = some "2025-11-09 03:00:00+00" ∧
      resolveMarketTs prefMarket = resolveTs "2025-11-09 03:00:00+00") ∧
    resolveTs "2025-11-09 03:00:00+00" ≠ resolveTs "2025-12-31T12:00:00Z" :=
  ⟨rfl, by decide,
    timestamp_field_preference.1 prefMarket "2025-11-09 03:00:00+00" rfl (by decide),
    by decide⟩

/-- C9: a record whose chosen timestamp field does not resolve is silently
dropped: removing it from the input leaves both filters' output unchanged,
and it never appears in either output; the filters still return normally
(they are total functions) for the remaining records. -/
theorem unresolved_timestamp_excluded (now : ℤ) (la lb : ℚ)
    (l1 l2 : List SportsMarket) (m : SportsMarket)
    (h : resolveMarketTs m = none) :
    filter_live_markets now lb (l1 ++ m :: l2) = filter_live_markets now lb (l1 ++ l2) ∧
    urgentFilter now la (l1 ++ m :: l2) = urgentFilter now la (l1 ++ l2) ∧
    (∀ p ∈ filter_live_markets now lb (l1 ++ m :: l2), p.1 ≠ m) ∧
    (∀ p ∈ urgentFilter now la (l1 ++ m :: l2), p.1 ≠ m) := by
  have hlive : liveEntry now lb m = none := by
    unfold liveEntry
    rw [h]
  have hurg : urgentEntry now la m = none := by
    unfold urgentEntry
    rw [h]
  refine ⟨?_, ?_, ?_, ?_⟩
  · unfold filter_live_markets
    rw [List.filterMap_append, List.filterMap_append, List.filterMap_cons_none hlive]
  · unfold urgentFilter
    rw [List.filterMap_append, List.filterMap_append, List.filterMap_cons_none hurg]
  · intro p hp hpm
    have hp' := List.mem_mergeSort.mp hp
    obtain ⟨a, _, hfa⟩ := List.mem_filterMap.mp hp'
    rw [show a = m from (liveEntry_fst hfa).symm.trans hpm] at hfa
    rw [hlive] at hfa
    exact Option.noConfusion hfa
  · intro p hp hpm
    have hp' := List.mem_mergeSort.mp hp
    obtain ⟨a, _, hfa⟩ := List.mem_filterMap.mp hp'
    rw [show a = m from (urgentEntry_fst hfa).symm.trans hpm] at hfa
    rw [hurg] at hfa
    exact Option.noConfusion hfa

/-- A live game one hour old at the reference instant `refNow`. -/
def liveGameA : SportsMarket :=
  { gameStartTime := some "2025-11-09 03:00:00+00", eventStartTime := none,
    endDate := none, question := "A vs B", liquidityClob := 100,
    clobTokenIds := ["a"] }

/-- A live game three hours old at the reference instant `refNow`. -/
def liveGameB : SportsMarket :=
  { gameStartTime := some "2025-11-09 01:00:00+00", eventStartTime := none,
    endDate := none, question := "C vs D", liquidityClob := 100,
    clobTokenIds := ["b"] }

/-- A record whose only timestamp field is unparseable garbage. -/
def garbageMarket : SportsMarket :=
  { gameStartTime := some "TBD", eventStartTime := none, endDate := none,
    question := "G vs H", liquidityClob := 50, clobTokenIds := ["g"] }

/-- The reference instant 2025-11-09 04:00:00 UTC as epoch seconds. -/
def refNow : ℤ := 1762660800

/-- Witness for C9: the garbage record drops out of both filters without
disturbing the record next to it. -/
theorem unresolved_timestamp_excluded_witness :
    resolveMarketTs garbageMarket = none ∧
    (filter_live_markets refNow 4 ([liveGameA] ++ garbageMarket :: []) =
        filter_live_markets refNow 4 ([liveGameA] ++ []) ∧
      urgentFilter refNow 6 ([liveGameA] ++ garbageMarket :: []) =
        urgentFilter refNow 6 ([liveGameA] ++ []) ∧
      (∀ p ∈ filter_live_markets refNow 4 ([liveGameA] ++ garbageMarket :: []),
        p.1 ≠ garbageMarket) ∧
      (∀ p ∈ urgentFilter refNow 6 ([liveGameA] ++ garbageMarket :: []),
        p.1 ≠ garbageMarket)) :=
  ⟨by decide, unresolved_timestamp_excluded refNow 6 4 [liveGameA] [] garbageMarket
    (by decide)⟩


/-- C2: exact liveness partition for records whose timestamp resolves.
Urgent mode keeps a record iff `hours_until <= lookahead` (negative values
included); live-only mode keeps it iff
`-lookback <= hours_until < 0`. -/
theorem liveness_partition (ms : List SportsMarket) (m : SportsMarket)
    (now : ℤ) (la lb : ℚ) (t : ℤ) (hm : m ∈ ms)
    (ht : resolveMarketTs m = some t) :
    (m ∈ (urgentFilter now la ms).map Prod.fst ↔ hoursUntil now t ≤ la) ∧
    (m ∈ (filter_live_markets now lb ms).map Prod.fst ↔
      (-lb ≤ hoursUntil now t ∧ hoursUntil now t < 0)) := by
  constructor
  · constructor
    · intro hmem
      obtain ⟨p, hp, hp1⟩ := List.mem_map.mp hmem
      have hp' := List.mem_mergeSort.mp hp
      obtain ⟨a, _, hfa⟩ := List.mem_filterMap.mp hp'
      rw [show a = m from (urgentEntry_fst hfa).symm.trans hp1] at hfa
      unfold urgentEntry at hfa
      rw [ht] at hfa
      dsimp only at hfa
      split at hfa
      · assumption
      · exact Option.noConfusion hfa
    · intro hcond
      have hentry : urgentEntry now la m = some (m, hoursUntil now t) := by
        unfold urgentEntry
        rw [ht]
        dsimp only
        rw [if_pos hcond]
      refine List.mem_map.mpr ⟨(m, hoursUntil now t), ?_, rfl⟩
      exact List.mem_mergeSort.mpr (List.mem_filterMap.mpr ⟨m, hm, hentry⟩)
  · have hconv : (0 < hoursSinceStart now t ∧ hoursSinceStart now t ≤ lb) ↔
        (-lb ≤ hoursUntil now t ∧ hoursUntil now t < 0) := by
      rw [hoursSince_eq_neg_until]
      constructor
      · rintro ⟨h1, h2⟩
        constructor <;> linarith
      · rintro ⟨h1, h2⟩
        constructor <;> linarith
    constructor
    · intro hmem
      obtain ⟨p, hp, hp1⟩ := List.mem_map.mp hmem
      have hp' := List.mem_mergeSort.mp hp
      obtain ⟨a, _, hfa⟩ := List.mem_filterMap.mp hp'
      rw [show a = m from (liveEntry_fst hfa).symm.trans hp1] at hfa
      unfold liveEntry at hfa
      rw [ht] at hfa
      dsimp only at hfa
      split at hfa
      · exact hconv.mp (by assumption)
      · exact Option.noConfusion hfa
    · intro hcond
      have hentry : liveEntry now lb m = some (m, hoursSinceStart now t) := by
        unfold liveEntry
        rw [ht]
        dsimp only
        rw [if_pos (hconv.mpr hcond)]
      refine List.mem_map.mpr ⟨(m, hoursSinceStart now t), ?_, rfl⟩
      exact List.mem_mergeSort.mpr (List.mem_filterMap.mpr ⟨m, hm, hentry⟩)

unseal Rat.add Rat.sub Rat.mul Rat.inv List.mergeSort List.merge in
/-- Witness for C2: `liveGameA` started one hour before `refNow`
(`hours_until = -1`), so it is kept by the urgent filter with
lookahead 6 and by the live filter with lookback 4. -/
theorem liveness_partition_witness :
    liveGameA ∈ [liveGameA] ∧
    resolveMarketTs liveGameA = some 1762657200 ∧
    ((liveGameA ∈ (urgentFilter refNow 6 [liveGameA]).map Prod.fst ↔
        hoursUntil refNow 1762657200 ≤ 6) ∧
      (liveGameA ∈ (filter_live_markets refNow 4 [liveGameA]).map Prod.fst ↔
        (-4 ≤ hoursUntil refNow 1762657200 ∧ hoursUntil refNow 1762657200 < 0))) :=
  ⟨List.mem_singleton.mpr rfl, by decide,
    liveness_partition [liveGameA] liveGameA refNow 6 4 1762657200
      (List.mem_singleton.mpr rfl) (by decide)⟩

/-- C3 (amended): the urgent-mode output is sorted ascending by its
`hours_until` annotation (most negative first); the live-only output of
`filter_live_markets` is instead sorted ascending by its
`hours_since_start` annotation — most recently started first — which is
descending order of `hours_until = -hours_since_start`. -/
theorem filters_sort_order (now : ℤ) (la lb : ℚ) (ms : List SportsMarket) :
    List.Pairwise (fun a b : SportsMarket × ℚ => a.2 ≤ b.2) (urgentFilter now la ms) ∧
    List.Pairwise (fun a b : SportsMarket × ℚ => a.2 ≤ b.2) (filter_live_markets now lb ms) ∧
    List.Pairwise (fun a b : SportsMarket × ℚ => -b.2 ≤ -a.2) (filter_live_markets now lb ms) := by
  have htrans : ∀ (a b c : SportsMarket × ℚ),
      (fun a b : SportsMarket × ℚ => decide (a.2 ≤ b.2)) a b →
      (fun a b : SportsMarket × ℚ => decide (a.2 ≤ b.2)) b c →
      (fun a b : SportsMarket × ℚ => decide (a.2 ≤ b.2)) a c := by
    intro a b c h1 h2
    simp only [decide_eq_true_eq] at h1 h2 ⊢
    exact le_trans h1 h2
  have htotal : ∀ (a b : SportsMarket × ℚ),
      ((fun a b : SportsMarket × ℚ => decide (a.2 ≤ b.2)) a b ||
        (fun a b : SportsMarket × ℚ => decide (a.2 ≤ b.2)) b a) := by
    intro a b
    simp only [Bool.or_eq_true, decide_eq_true_eq]
    exact le_total a.2 b.2
  have h1 := List.sorted_mergeSort htrans htotal
    (ms.filterMap (urgentEntry now la))
  have h2 := List.sorted_mergeSort htrans htotal
    (ms.filterMap (liveEntry now lb))
  refine ⟨h1.imp ?_, h2.imp ?_, h2.imp ?_⟩
  · intro a b hab
    simpa using hab
  · intro a b hab
    simpa using hab
  · intro a b hab
    simp only [decide_eq_true_eq] at hab
    exact neg_le_neg hab

unseal Rat.add Rat.sub Rat.mul Rat.inv List.mergeSort List.merge in
/-- Counterexample to C3 as stated: with `liveGameA` (started 1 h ago,
`hours_until = -1`) and `liveGameB` (started 3 h ago, `hours_until = -3`),
`filter_live_markets` outputs `hours_until` values `[-1, -3]` — the most
negative (most time-critical) record comes last, not first, so the
live-only output is not sorted ascending by `hours_until`. -/
theorem live_filter_hours_until_order_cex :
    ((filter_live_markets refNow 4 [liveGameA, liveGameB]).map fun p => -p.2) =
      [-1, -3] ∧
    ¬ List.Pairwise (fun x y : ℚ => x ≤ y)
      ((filter_live_markets refNow 4 [liveGameA, liveGameB]).map fun p => -p.2) := by
  have h1 : ((filter_live_markets refNow 4 [liveGameA, liveGameB]).map fun p => -p.2) =
      [-1, -3] := by decide
  refine ⟨h1, ?_⟩
  rw [h1]
  intro hp
  have := (List.pairwise_cons.mp hp).1 (-3) (List.mem_singleton.mpr rfl)
  norm_num at this


theorem toList_mk (l : List Char) : (String.mk l).toList = l := rfl

theorem digit_ne_plus {c : Char} (h : c.isDigit = true) : c ≠ '+' := by
  intro e
  subst e
  exact absurd h (by decide)

theorem digit_ne_zulu {c : Char} (h : c.isDigit = true) : c ≠ 'Z' := by
  intro e
  subst e
  exact absurd h (by decide)

theorem digit_ne_space {c : Char} (h : c.isDigit = true) : c ≠ ' ' := by
  intro e
  subst e
  exact absurd h (by decide)

theorem replacePlus00_cons_ne {c : Char} (l : List Char) (h : c ≠ '+') :
    replacePlus00 (c :: l) = c :: replacePlus00 l := by
  rw [replacePlus00.eq_def]
  split
  · simp_all
  · rename_i heq
    injection heq with h1 _
    exact absurd h1 h
  · rename_i hno heq
    injection heq with h1 h2
    rw [← h1, ← h2]

theorem replaceZ_cons_ne {c : Char} (l : List Char) (h : c ≠ 'Z') :
    replaceZ (c :: l) = c :: replaceZ l := by
  rw [replaceZ.eq_def]
  split
  · simp_all
  · rename_i heq
    injection heq with h1 _
    exact absurd h1 h
  · rename_i hno heq
    injection heq with h1 h2
    rw [← h1, ← h2]

theorem replacePlus00_append {body tail : List Char}
    (h : ∀ c ∈ body, c ≠ '+') :
    replacePlus00 (body ++ tail) = body ++ replacePlus00 tail := by
  induction body with
  | nil => simp
  | cons c bs ih =>
    rw [List.cons_append,
      replacePlus00_cons_ne _ (h c (List.mem_cons_self c bs)),
      ih fun x hx => h x (List.mem_cons_of_mem c hx), List.cons_append]

theorem replaceZ_append {body tail : List Char}
    (h : ∀ c ∈ body, c ≠ 'Z') :
    replaceZ (body ++ tail) = body ++ replaceZ tail := by
  induction body with
  | nil => simp
  | cons c bs ih =>
    rw [List.cons_append,
      replaceZ_cons_ne _ (h c (List.mem_cons_self c bs)),
      ih fun x hx => h x (List.mem_cons_of_mem c hx), List.cons_append]

/-- C8: the space-separated truncated-offset encoding
`"<date> <time>+00"` and the zulu encoding `"<date>T<time>Z"` of the same
date-time digits normalise to equal resolved instants.  The theorem
quantifies over the fourteen digit characters of the date and time, so it
covers the two encodings of every instant expressible in these formats. -/
theorem space_and_zulu_formats_agree
    (y1 y2 y3 y4 mo1 mo2 dd1 dd2 hh1 hh2 mi1 mi2 ss1 ss2 : Char)
    (hy1 : y1.isDigit = true) (hy2 : y2.isDigit = true)
    (hy3 : y3.isDigit = true) (hy4 : y4.isDigit = true)
    (hmo1 : mo1.isDigit = true) (hmo2 : mo2.isDigit = true)
    (hdd1 : dd1.isDigit = true) (hdd2 : dd2.isDigit = true)
    (hhh1 : hh1.isDigit = true) (hhh2 : hh2.isDigit = true)
    (hmi1 : mi1.isDigit = true) (hmi2 : mi2.isDigit = true)
    (hss1 : ss1.isDigit = true) (hss2 : ss2.isDigit = true) :
    resolveTs ⟨[y1, y2, y3, y4, '-', mo1, mo2, '-', dd1, dd2, ' ',
                hh1, hh2, ':', mi1, mi2, ':', ss1, ss2, '+', '0', '0']⟩ =
    resolveTs ⟨[y1, y2, y3, y4, '-', mo1, mo2, '-', dd1, dd2, 'T',
                hh1, hh2, ':', mi1, mi2, ':', ss1, ss2, 'Z']⟩ := by
  have hplus : ∀ c ∈ [y1, y2, y3, y4, '-', mo1, mo2, '-', dd1, dd2, ' ',
      hh1, hh2, ':', mi1, mi2, ':', ss1, ss2], c ≠ '+' := by
    intro c hc
    simp only [List.mem_cons, List.not_mem_nil, or_false] at hc
    rcases hc with hc|hc|hc|hc|hc|hc|hc|hc|hc|hc|hc|hc|hc|hc|hc|hc|hc|hc|hc
    all_goals subst hc
    all_goals first
      | decide
      | exact digit_ne_plus (by assumption)
  have hzulu : ∀ c ∈ [y1, y2, y3, y4, '-', mo1, mo2, '-', dd1, dd2, 'T',
      hh1, hh2, ':', mi1, mi2, ':', ss1, ss2], c ≠ 'Z' := by
    intro c hc
    simp only [List.mem_cons, List.not_mem_nil, or_false] at hc
    rcases hc with hc|hc|hc|hc|hc|hc|hc|hc|hc|hc|hc|hc|hc|hc|hc|hc|hc|hc|hc
    all_goals subst hc
    all_goals first
      | decide
      | exact digit_ne_zulu (by assumption)
  have hnospace : ¬ (' ' ∈ ([y1, y2, y3, y4, '-', mo1, mo2, '-', dd1, dd2, 'T',
      hh1, hh2, ':', mi1, mi2, ':', ss1, ss2, 'Z'] : List Char) ∧
      '+' ∈ ([y1, y2, y3, y4, '-', mo1, mo2, '-', dd1, dd2, 'T',
      hh1, hh2, ':', mi1, mi2, ':', ss1, ss2, 'Z'] : List Char)) := by
    rintro ⟨hc, -⟩
    simp only [List.mem_cons, List.not_mem_nil, or_false] at hc
    rcases hc with hc|hc|hc|hc|hc|hc|hc|hc|hc|hc|hc|hc|hc|hc|hc|hc|hc|hc|hc|hc
    all_goals first
      | exact absurd hc (by decide)
      | (subst hc
         exact absurd (by assumption : Char.isDigit ' ' = true) (by decide))
  have hspc : (' ' ∈ ([y1, y2, y3, y4, '-', mo1, mo2, '-', dd1, dd2, ' ',
      hh1, hh2, ':', mi1, mi2, ':', ss1, ss2, '+', '0', '0'] : List Char)) ∧
      '+' ∈ ([y1, y2, y3, y4, '-', mo1, mo2, '-', dd1, dd2, ' ',
      hh1, hh2, ':', mi1, mi2, ':', ss1, ss2, '+', '0', '0'] : List Char) := by
    constructor <;> simp
  unfold resolveTs normalizeTs
  rw [toList_mk, toList_mk]
  split
  · split
    · rename_i h2
      exact absurd h2 hnospace
    · rw [toList_mk, toList_mk]
      rw [show ([y1, y2, y3, y4, '-', mo1, mo2, '-', dd1, dd2, ' ',
          hh1, hh2, ':', mi1, mi2, ':', ss1, ss2, '+', '0', '0'] : List Char) =
          [y1, y2, y3, y4, '-', mo1, mo2, '-', dd1, dd2, ' ',
          hh1, hh2, ':', mi1, mi2, ':', ss1, ss2] ++ ['+', '0', '0'] from rfl,
        replacePlus00_append hplus]
      rw [show ([y1, y2, y3, y4, '-', mo1, mo2, '-', dd1, dd2, 'T',
          hh1, hh2, ':', mi1, mi2, ':', ss1, ss2, 'Z'] : List Char) =
          [y1, y2, y3, y4, '-', mo1, mo2, '-', dd1, dd2, 'T',
          hh1, hh2, ':', mi1, mi2, ':', ss1, ss2] ++ ['Z'] from rfl,
        replaceZ_append hzulu]
      rfl
  · rename_i h1
    exact absurd hspc h1

/-- Witness for C8 at the spec's scenario instant 2025-11-09 03:00:00 UTC:
both encodings resolve, to the same epoch second. -/
theorem space_and_zulu_formats_agree_witness :
    Char.isDigit '2' = true ∧
    resolveTs "2025-11-09 03:00:00+00" = resolveTs "2025-11-09T03:00:00Z" ∧
    resolveTs "2025-11-09T03:00:00Z" = some 1762657200 :=
  ⟨rfl,
    space_and_zulu_formats_agree '2' '0' '2' '5' '1' '1' '0' '9' '0' '3' '0' '0' '0' '0'
      rfl rfl rfl rfl rfl rfl rfl rfl rfl rfl rfl rfl rfl rfl,
    by decide⟩

end PolyTrade
